import Mathlib

/-
Shallow embedding of the paint application's core (src/src/App.js):
the undo/redo History Manager and its interaction with the canvas
Surface.

Modelling choices, each traceable to the source:

* A canvas pixel is abstracted as a single rational intensity; the
  Surface (the canvas pixel buffer) is a `List ℚ` of fixed length per
  session.  Compositing a source pixel `s` over a destination pixel `d`
  at `ctx.globalAlpha = a` is `blend a s d = a*s + (1-a)*d`; at `a = 1`
  this overwrites the destination, matching canvas source-over
  semantics at the level of detail the History Manager depends on.
* `canvas.toDataURL()` is `encode` (lossless, as PNG data URLs are);
  an `Image` whose `src` cannot be decoded never fires `onload`, so
  `decode` returns `none` and the `onload` body (clear + draw) never
  runs.  `Snapshot.corrupt` stands for such an undecodable data URL.
* React state (`isDrawing`, `lineWidth`, `lineColor`, `lineOpacity`,
  `undoStack`, `redoStack`) and the 2d-context state read or written by
  the handlers (`globalAlpha`, `strokeStyle`, `lineWidth` of the ctx)
  are fields of `AppState`.  `ctx.lineCap`/`ctx.lineJoin` are set to
  the constant "round" and never read back; they have no effect in the
  pixel model and are omitted.
* `ctx.stroke()` paints the current path's pixels through the ambient
  `globalAlpha`; the geometry is irrelevant to the history claims, so a
  `draw` event carries the segment's pixel image (`ink`) and composites
  it at `globalAlpha`.  `beginPath`/`moveTo`/`closePath` paint nothing.
-/

/-- Pixel intensity, abstracted as a rational number. -/
abbrev Pixel : Type := ℚ

/-- The canvas pixel buffer (the Surface of the spec). -/
abbrev Surface : Type := List Pixel

/-- Source-over compositing of one source pixel over one destination
pixel at global alpha `a`. -/
def blend (a s d : Pixel) : Pixel := a * s + (1 - a) * d

/-- Model of `ctx.drawImage(img, 0, 0)` under global alpha `a`: each
pixel of `img` is composited over the corresponding destination pixel;
destination pixels beyond the image keep their value, and the canvas
keeps its own size (drawing never grows or shrinks the buffer). -/
def drawImage (a : Pixel) : Surface → Surface → Surface
  | _, [] => []
  | [], d :: ds => d :: ds
  | s :: ss, d :: ds => blend a s d :: drawImage a ss ds

/-- Model of `ctx.clearRect(0, 0, canvas.width, canvas.height)`: every
pixel is reset to the blank value 0. -/
def clearRect (s : Surface) : Surface := s.map (fun _ => 0)

/-- An encoded snapshot of the Surface (a `canvas.toDataURL()` string).
`corrupt` stands for a data URL that an `Image` cannot decode. -/
inductive Snapshot : Type where
  | valid (data : Surface)
  | corrupt
deriving DecidableEq, Repr

/-- Model of `canvas.toDataURL()`: a lossless encoding of the pixels. -/
def encode (s : Surface) : Snapshot := Snapshot.valid s

/-- Model of decoding a data URL into an `Image`: `none` when the
`Image` never fires `onload`. -/
def decode : Snapshot → Option Surface
  | Snapshot.valid d => some d
  | Snapshot.corrupt => none

/-- The React component state together with the 2d-context state that
the handlers in App.js read and write. -/
structure AppState : Type where
  surface : Surface
  isDrawing : Bool
  lineWidth : ℚ
  lineColor : ℕ
  lineOpacity : ℚ
  undoStack : List Snapshot
  redoStack : List Snapshot
  globalAlpha : ℚ
  strokeStyle : ℕ
  ctxLineWidth : ℚ
deriving DecidableEq, Repr

/-- `saveState` (App.js 29-33): encode the canvas and append the data
URL to the undo stack. -/
def saveState (st : AppState) : AppState :=
  { st with undoStack := st.undoStack ++ [encode st.surface] }

/-- `restoreState` (App.js 35-53): decode the data URL; when the image
loads, clear the canvas, temporarily set `globalAlpha` to 1, draw the
image, and put `globalAlpha` back.  When the image never loads, nothing
runs and the state is untouched. -/
def restoreState (st : AppState) (dataUrl : Snapshot) : AppState :=
  match decode dataUrl with
  | none => st
  | some img =>
      let cleared := clearRect st.surface
      let currentAlpha := st.globalAlpha
      { st with surface := drawImage 1 img cleared, globalAlpha := currentAlpha }

/-- `startDrawing` (App.js 56-60): begin a path (paints nothing) and
set `isDrawing`. -/
def startDrawing (st : AppState) : AppState := { st with isDrawing := true }

/-- `draw` (App.js 71-75): when drawing, paint the segment's pixels
through the ambient `globalAlpha`; otherwise do nothing. -/
def draw (ink : Surface) (st : AppState) : AppState :=
  if st.isDrawing then
    { st with surface := drawImage st.globalAlpha ink st.surface }
  else st

/-- `endDrawing` (App.js 62-69): when drawing, close the path (paints
nothing), clear `isDrawing`, save the state, and clear the redo stack. -/
def endDrawing (st : AppState) : AppState :=
  if st.isDrawing then
    let st1 := { st with isDrawing := false }
    let st2 := saveState st1
    { st2 with redoStack := [] }
  else st

/-- `handleUndo` (App.js 77-85): when the undo stack has more than one
entry, pop its last entry, push it onto the front of the redo stack,
and restore from the new last entry of the undo stack. -/
def handleUndo (st : AppState) : AppState :=
  if 1 < st.undoStack.length then
    let newUndoStack := st.undoStack.dropLast
    match st.undoStack.getLast? with
    | some lastState =>
        let st1 := { st with redoStack := lastState :: st.redoStack,
                             undoStack := newUndoStack }
        match newUndoStack.getLast? with
        | some prev => restoreState st1 prev
        | none => st1
    | none => st
  else st

/-- `handleRedo` (App.js 87-95): when the redo stack is non-empty,
shift its first entry, append it to the undo stack, and restore from
it. -/
def handleRedo (st : AppState) : AppState :=
  match st.redoStack with
  | [] => st
  | nextState :: rest =>
      let st1 := { st with redoStack := rest,
                           undoStack := st.undoStack ++ [nextState] }
      restoreState st1 nextState

/-- The `useEffect` body (App.js 15-27): configure the 2d context from
the current brush state, then `saveState()`.  Runs after mount and
after every change of `lineColor`, `lineOpacity` or `lineWidth`. -/
def useEffectRun (st : AppState) : AppState :=
  let st1 := { st with globalAlpha := st.lineOpacity,
                       strokeStyle := st.lineColor,
                       ctxLineWidth := st.lineWidth }
  saveState st1

/-- The initial React state (App.js 6-13) over a blank canvas buffer
`surf`: `isDrawing = false`, `lineWidth = 5`, `lineColor = black`,
`lineOpacity = 0.1`, both stacks empty; the fresh 2d context has its
defaults (`globalAlpha = 1`, black stroke, width 1). -/
def initReactState (surf : Surface) : AppState :=
  { surface := surf
    isDrawing := false
    lineWidth := 5
    lineColor := 0
    lineOpacity := 1/10
    undoStack := []
    redoStack := []
    globalAlpha := 1
    strokeStyle := 0
    ctxLineWidth := 1 }

/-- Session start: the initial React state followed by the first
`useEffect` run. -/
def mount (surf : Surface) : AppState := useEffectRun (initReactState surf)

/-- A brush configuration change: the setters update the React state
and the `useEffect` re-runs (its dependency array is
`[lineColor, lineOpacity, lineWidth]`). -/
def configChange (c : ℕ) (w o : ℚ) (st : AppState) : AppState :=
  useEffectRun { st with lineColor := c, lineWidth := w, lineOpacity := o }

/-- One completed stroke: pointer-down, a sequence of pointer-moves
each painting a segment, pointer-up. -/
def stroke (segs : List Surface) (st : AppState) : AppState :=
  endDrawing (segs.foldl (fun s ink => draw ink s) (startDrawing st))

/-- A session tail: a sequence of completed strokes with no
intervening undo, redo or configuration change. -/
def runStrokes (ss : List (List Surface)) (st : AppState) : AppState :=
  ss.foldl (fun s segs => stroke segs s) st

/-- Example state builder for concrete witnesses: an idle state with the
given canvas, undo stack and redo stack, under a half-opacity brush. -/
def mkState (surf : Surface) (us rs : List Snapshot) : AppState :=
  { surface := surf
    isDrawing := false
    lineWidth := 5
    lineColor := 0
    lineOpacity := 1/2
    undoStack := us
    redoStack := rs
    globalAlpha := 1/2
    strokeStyle := 0
    ctxLineWidth := 5 }

/-! Helper lemmas shared by the claim theorems. -/

theorem blend_one (s d : Pixel) : blend 1 s d = s := by
  unfold blend; ring

theorem drawImage_length (a : Pixel) (img dst : Surface) :
    (drawImage a img dst).length = dst.length := by
  induction img generalizing dst with
  | nil => cases dst <;> simp [drawImage]
  | cons s ss ih => cases dst <;> simp [drawImage, ih]

theorem drawImage_one_of_length_eq (img dst : Surface)
    (h : img.length = dst.length) : drawImage 1 img dst = img := by
  induction img generalizing dst with
  | nil =>
      cases dst with
      | nil => rfl
      | cons d ds => simp at h
  | cons s ss ih =>
      cases dst with
      | nil => simp at h
      | cons d ds =>
          simp only [List.length_cons, Nat.succ.injEq] at h
          simp [drawImage, blend_one, ih ds h]

theorem clearRect_length (s : Surface) : (clearRect s).length = s.length := by
  simp [clearRect]

@[simp] theorem restoreState_undoStack (st : AppState) (snap : Snapshot) :
    (restoreState st snap).undoStack = st.undoStack := by
  unfold restoreState; cases decode snap <;> rfl

@[simp] theorem restoreState_redoStack (st : AppState) (snap : Snapshot) :
    (restoreState st snap).redoStack = st.redoStack := by
  unfold restoreState; cases decode snap <;> rfl

@[simp] theorem restoreState_isDrawing (st : AppState) (snap : Snapshot) :
    (restoreState st snap).isDrawing = st.isDrawing := by
  unfold restoreState; cases decode snap <;> rfl

@[simp] theorem restoreState_globalAlpha (st : AppState) (snap : Snapshot) :
    (restoreState st snap).globalAlpha = st.globalAlpha := by
  unfold restoreState; cases decode snap <;> rfl

@[simp] theorem restoreState_lineOpacity (st : AppState) (snap : Snapshot) :
    (restoreState st snap).lineOpacity = st.lineOpacity := by
  unfold restoreState; cases decode snap <;> rfl

@[simp] theorem restoreState_lineWidth (st : AppState) (snap : Snapshot) :
    (restoreState st snap).lineWidth = st.lineWidth := by
  unfold restoreState; cases decode snap <;> rfl

@[simp] theorem restoreState_lineColor (st : AppState) (snap : Snapshot) :
    (restoreState st snap).lineColor = st.lineColor := by
  unfold restoreState; cases decode snap <;> rfl

@[simp] theorem restoreState_strokeStyle (st : AppState) (snap : Snapshot) :
    (restoreState st snap).strokeStyle = st.strokeStyle := by
  unfold restoreState; cases decode snap <;> rfl

@[simp] theorem restoreState_ctxLineWidth (st : AppState) (snap : Snapshot) :
    (restoreState st snap).ctxLineWidth = st.ctxLineWidth := by
  unfold restoreState; cases decode snap <;> rfl

theorem restoreState_surface_length (st : AppState) (snap : Snapshot) :
    (restoreState st snap).surface.length = st.surface.length := by
  unfold restoreState
  cases decode snap with
  | none => rfl
  | some img => simp [drawImage_length, clearRect_length]

theorem restoreState_surface_of_decode (st : AppState) (snap : Snapshot)
    (img : Surface) (hd : decode snap = some img)
    (hl : img.length = st.surface.length) :
    (restoreState st snap).surface = img := by
  unfold restoreState
  rw [hd]
  exact drawImage_one_of_length_eq img (clearRect st.surface)
    (by rw [clearRect_length]; exact hl)

theorem decode_encode (s : Surface) : decode (encode s) = some s := rfl

theorem AppState.extEq (a b : AppState)
    (h1 : a.surface = b.surface) (h2 : a.isDrawing = b.isDrawing)
    (h3 : a.lineWidth = b.lineWidth) (h4 : a.lineColor = b.lineColor)
    (h5 : a.lineOpacity = b.lineOpacity) (h6 : a.undoStack = b.undoStack)
    (h7 : a.redoStack = b.redoStack) (h8 : a.globalAlpha = b.globalAlpha)
    (h9 : a.strokeStyle = b.strokeStyle) (h10 : a.ctxLineWidth = b.ctxLineWidth) :
    a = b := by
  cases a; cases b; simp_all

theorem handleUndo_noop (st : AppState) (h : ¬ 1 < st.undoStack.length) :
    handleUndo st = st := by
  unfold handleUndo
  rw [if_neg h]

theorem handleUndo_concat (st : AppState) (q : List Snapshot) (t s : Snapshot)
    (h : st.undoStack = q ++ [t] ++ [s]) :
    handleUndo st =
      restoreState
        { st with redoStack := s :: st.redoStack, undoStack := q ++ [t] } t := by
  unfold handleUndo
  rw [if_pos (by rw [h]; simp)]
  simp only [h, List.getLast?_concat, List.dropLast_concat]

theorem handleRedo_noop (st : AppState) (h : st.redoStack = []) :
    handleRedo st = st := by
  unfold handleRedo
  rw [h]

theorem handleRedo_cons (st : AppState) (s : Snapshot) (rest : List Snapshot)
    (h : st.redoStack = s :: rest) :
    handleRedo st =
      restoreState
        { st with redoStack := rest, undoStack := st.undoStack ++ [s] } s := by
  unfold handleRedo
  rw [h]

/-- Claim C4: every completion of a stroke clears the redo stack
unconditionally and appends the current Surface snapshot to the undo
stack, whatever the prior history state was; previously undone states
are discarded, not resurrected. -/
theorem endDrawing_clears_future (st : AppState) (h : st.isDrawing = true) :
    (endDrawing st).redoStack = [] ∧
    (endDrawing st).undoStack = st.undoStack ++ [encode st.surface] := by
  unfold endDrawing saveState
  rw [if_pos h]
  exact ⟨rfl, rfl⟩

/-- Witness for C4 at a concrete mid-stroke state with a non-empty redo
stack: after the commit the redo stack is empty and the snapshot is
appended. -/
theorem endDrawing_clears_future_witness :
    (endDrawing { mkState [3] [encode [0]] [encode [7]] with isDrawing := true }).redoStack = [] ∧
    (endDrawing { mkState [3] [encode [0]] [encode [7]] with isDrawing := true }).undoStack =
      [encode [0], encode [3]] :=
  ⟨(endDrawing_clears_future _ rfl).1, (endDrawing_clears_future _ rfl).2⟩

/-- Claim C6: when the undo stack has exactly one entry, undo is a
silent no-op: the whole state, Surface included, is unchanged. -/
theorem handleUndo_single (st : AppState) (h : st.undoStack.length = 1) :
    handleUndo st = st :=
  handleUndo_noop st (by omega)

/-- Witness for C6 at a concrete one-entry history. -/
theorem handleUndo_single_witness :
    handleUndo (mkState [4] [encode [4]] [encode [9]]) =
      mkState [4] [encode [4]] [encode [9]] :=
  handleUndo_single _ rfl

/-- Claim C9: when a snapshot cannot be decoded, the restore is
abandoned silently and the whole state, the Surface pixels included, is
left unchanged (no partial clear or draw). -/
theorem restoreState_decode_failure (st : AppState) (snap : Snapshot)
    (h : decode snap = none) : restoreState st snap = st := by
  unfold restoreState
  rw [h]

/-- Witness for C9 at a concrete state and a corrupt snapshot. -/
theorem restoreState_decode_failure_witness :
    restoreState (mkState [6] [encode [6]] []) Snapshot.corrupt =
      mkState [6] [encode [6]] [] :=
  restoreState_decode_failure _ _ rfl

theorem undoStack_decomp (l : List Snapshot) (h : 1 < l.length) :
    ∃ q t s, l = q ++ [t] ++ [s] := by
  rcases List.eq_nil_or_concat l with h0 | ⟨r, s, hr⟩
  · rw [h0] at h; simp at h
  · have hrne : r ≠ [] := by
      intro h0
      rw [hr, h0] at h
      simp at h
    obtain ⟨q, t, hq⟩ := (List.eq_nil_or_concat r).resolve_left hrne
    exact ⟨q, t, s, by rw [hr, hq]; simp [List.concat_eq_append]⟩

/-- Claim C5: with more than one entry in the undo stack, undo pops the
last entry of past, pushes it onto the front of future, and restores
the Surface from the new last element of past; otherwise it is a
no-op. -/
theorem handleUndo_spec (st : AppState) :
    (∀ s, 1 < st.undoStack.length → st.undoStack.getLast? = some s →
      (handleUndo st).undoStack = st.undoStack.dropLast ∧
      (handleUndo st).redoStack = s :: st.redoStack ∧
      ∀ t img, st.undoStack.dropLast.getLast? = some t → decode t = some img →
        img.length = st.surface.length → (handleUndo st).surface = img) ∧
    (¬ 1 < st.undoStack.length → handleUndo st = st) := by
  constructor
  · intro s hlen hlast
    obtain ⟨q, t, s2, hd⟩ := undoStack_decomp st.undoStack hlen
    have hs2 : s2 = s := by
      rw [hd, List.getLast?_concat] at hlast
      exact Option.some_inj.mp hlast
    rw [hs2] at hd
    have hu := handleUndo_concat st q t s hd
    have hdrop : st.undoStack.dropLast = q ++ [t] := by
      rw [hd, List.dropLast_concat]
    refine ⟨?_, ?_, ?_⟩
    · rw [hu, hdrop]
      exact restoreState_undoStack _ _
    · rw [hu]
      exact restoreState_redoStack _ _
    · intro t2 img ht2 hdec hl
      have ht2e : t = t2 := by
        rw [hdrop, List.getLast?_concat] at ht2
        exact Option.some_inj.mp ht2
      subst ht2e
      rw [hu]
      exact restoreState_surface_of_decode _ t img hdec hl
  · exact handleUndo_noop st

/-- Witness for C5 at a concrete two-entry history: undo pops the last
snapshot, pushes it onto future, and the Surface becomes the decoded
content of the remaining snapshot. -/
theorem handleUndo_spec_witness :
    (handleUndo (mkState [5] [encode [0], encode [5]] [])).undoStack = [encode [0]] ∧
    (handleUndo (mkState [5] [encode [0], encode [5]] [])).redoStack = [encode [5]] ∧
    (handleUndo (mkState [5] [encode [0], encode [5]] [])).surface = [0] := by
  have h := (handleUndo_spec (mkState [5] [encode [0], encode [5]] [])).1
    (encode [5]) (by decide) rfl
  exact ⟨h.1, h.2.1, h.2.2 (encode [0]) [0] rfl rfl rfl⟩

/-- Claim C7: redo with an empty future is a silent no-op leaving the
whole state unchanged; with a non-empty future it shifts the first
entry of future, appends it to past, and restores the Surface from that
entry. -/
theorem handleRedo_spec (st : AppState) :
    (st.redoStack = [] → handleRedo st = st) ∧
    (∀ s rest, st.redoStack = s :: rest →
      (handleRedo st).redoStack = rest ∧
      (handleRedo st).undoStack = st.undoStack ++ [s] ∧
      ∀ img, decode s = some img → img.length = st.surface.length →
        (handleRedo st).surface = img) := by
  constructor
  · exact handleRedo_noop st
  · intro s rest h
    have hr := handleRedo_cons st s rest h
    refine ⟨?_, ?_, ?_⟩
    · rw [hr]
      exact restoreState_redoStack _ _
    · rw [hr]
      exact restoreState_undoStack _ _
    · intro img hdec hl
      rw [hr]
      exact restoreState_surface_of_decode _ s img hdec hl

/-- Witness for C7 at two concrete states: an empty future (no-op) and
a one-entry future (shift, append, restore). -/
theorem handleRedo_spec_witness :
    handleRedo (mkState [5] [encode [5]] []) = mkState [5] [encode [5]] [] ∧
    (handleRedo (mkState [0] [encode [0]] [encode [5]])).redoStack = [] ∧
    (handleRedo (mkState [0] [encode [0]] [encode [5]])).undoStack =
      [encode [0], encode [5]] ∧
    (handleRedo (mkState [0] [encode [0]] [encode [5]])).surface = [5] := by
  have h1 := (handleRedo_spec (mkState [5] [encode [5]] [])).1 rfl
  have h2 := (handleRedo_spec (mkState [0] [encode [0]] [encode [5]])).2
    (encode [5]) [] rfl
  exact ⟨h1, h2.1, h2.2.1, h2.2.2 [5] rfl rfl⟩

/-- Claim C8: restore copies the decoded snapshot onto the Surface at
full opacity, independent of the current global alpha, re-applies the
ambient alpha afterwards, and a repeated restore of the same snapshot
reproduces the identical pixels rather than compounding opacity. -/
theorem restoreState_full_opacity (st : AppState) (snap : Snapshot) (img : Surface)
    (hd : decode snap = some img) (hl : img.length = st.surface.length) :
    (restoreState st snap).surface = img ∧
    (restoreState st snap).globalAlpha = st.globalAlpha ∧
    (∀ a : ℚ, (restoreState { st with globalAlpha := a } snap).surface = img) ∧
    (restoreState (restoreState st snap) snap).surface = img := by
  have h1 := restoreState_surface_of_decode st snap img hd hl
  refine ⟨h1, restoreState_globalAlpha st snap, ?_, ?_⟩
  · intro a
    exact restoreState_surface_of_decode _ snap img hd hl
  · exact restoreState_surface_of_decode _ snap img hd (by rw [h1])

/-- Witness for C8 at a concrete half-opacity state: the restored
pixels equal the snapshot exactly, the ambient alpha is kept, the
result is the same under a different ambient alpha, and restoring twice
changes nothing further. -/
theorem restoreState_full_opacity_witness :
    (restoreState (mkState [2, 4] [encode [2, 4]] []) (encode [8, 0])).surface = [8, 0] ∧
    (restoreState (mkState [2, 4] [encode [2, 4]] []) (encode [8, 0])).globalAlpha = 1/2 ∧
    (restoreState { mkState [2, 4] [encode [2, 4]] [] with globalAlpha := 1/4 }
      (encode [8, 0])).surface = [8, 0] ∧
    (restoreState (restoreState (mkState [2, 4] [encode [2, 4]] []) (encode [8, 0]))
      (encode [8, 0])).surface = [8, 0] := by
  have h := restoreState_full_opacity (mkState [2, 4] [encode [2, 4]] [])
    (encode [8, 0]) [8, 0] rfl rfl
  exact ⟨h.1, h.2.1, h.2.2.1 (1/4), h.2.2.2⟩

/-- Claim C10: undo and redo both preserve the total number of stored
snapshots: the sum of the lengths of past and future is unchanged by
either operation. -/
theorem history_length_conservation (st : AppState) :
    (handleUndo st).undoStack.length + (handleUndo st).redoStack.length =
      st.undoStack.length + st.redoStack.length ∧
    (handleRedo st).undoStack.length + (handleRedo st).redoStack.length =
      st.undoStack.length + st.redoStack.length := by
  constructor
  · by_cases h : 1 < st.undoStack.length
    · obtain ⟨q, t, s, hd⟩ := undoStack_decomp st.undoStack h
      rw [handleUndo_concat st q t s hd, restoreState_undoStack, restoreState_redoStack,
        hd]
      simp
      omega
    · rw [handleUndo_noop st h]
  · cases hrs : st.redoStack with
    | nil => rw [handleRedo_noop st hrs, hrs]
    | cons s rest =>
        rw [handleRedo_cons st s rest hrs, restoreState_undoStack,
          restoreState_redoStack]
        simp
        omega

theorem draw_stacks (ink : Surface) (st : AppState) :
    (draw ink st).undoStack = st.undoStack ∧
    (draw ink st).redoStack = st.redoStack ∧
    (draw ink st).isDrawing = st.isDrawing := by
  unfold draw
  split <;> exact ⟨rfl, rfl, rfl⟩

theorem foldlDraw_stacks (segs : List Surface) (st : AppState) :
    (segs.foldl (fun s ink => draw ink s) st).undoStack = st.undoStack ∧
    (segs.foldl (fun s ink => draw ink s) st).redoStack = st.redoStack ∧
    (segs.foldl (fun s ink => draw ink s) st).isDrawing = st.isDrawing := by
  induction segs generalizing st with
  | nil => exact ⟨rfl, rfl, rfl⟩
  | cons ink rest ih =>
      have h1 := draw_stacks ink st
      have h2 := ih (draw ink st)
      exact ⟨h2.1.trans h1.1, h2.2.1.trans h1.2.1, h2.2.2.trans h1.2.2⟩

theorem endDrawing_drawing (st : AppState) (h : st.isDrawing = true) :
    endDrawing st =
      { st with isDrawing := false,
                undoStack := st.undoStack ++ [encode st.surface],
                redoStack := [] } := by
  unfold endDrawing saveState
  rw [if_pos h]

theorem stroke_counts (segs : List Surface) (st : AppState) :
    (stroke segs st).undoStack.length = st.undoStack.length + 1 ∧
    (stroke segs st).redoStack = [] := by
  unfold stroke
  have h := foldlDraw_stacks segs (startDrawing st)
  have hdrawing : (segs.foldl (fun s ink => draw ink s) (startDrawing st)).isDrawing = true :=
    h.2.2
  rw [endDrawing_drawing _ hdrawing]
  constructor
  · simp [h.1]
    rfl
  · rfl

theorem runStrokes_counts (ss : List (List Surface)) (st : AppState)
    (h : st.redoStack = []) :
    (runStrokes ss st).undoStack.length = st.undoStack.length + ss.length ∧
    (runStrokes ss st).redoStack = [] := by
  induction ss generalizing st with
  | nil => exact ⟨rfl, h⟩
  | cons segs rest ih =>
      have hstep : runStrokes (segs :: rest) st = runStrokes rest (stroke segs st) := rfl
      have hs := stroke_counts segs st
      have hrec := ih (stroke segs st) hs.2
      constructor
      · rw [hstep, hrec.1, hs.1]
        simp only [List.length_cons]
        omega
      · rw [hstep]
        exact hrec.2

/-- Claim C2: starting from session mount, after any sequence of N
completed strokes with no intervening undo, redo or configuration
change, the undo stack has N + 1 entries (the initial blank snapshot
included) and the redo stack is empty. -/
theorem runStrokes_history_counts (ss : List (List Surface)) (surf : Surface) :
    (runStrokes ss (mount surf)).undoStack.length = ss.length + 1 ∧
    (runStrokes ss (mount surf)).redoStack = [] := by
  have h := runStrokes_counts ss (mount surf) rfl
  refine ⟨?_, h.2⟩
  rw [h.1]
  show 1 + ss.length = ss.length + 1
  omega

/-- Claim C1 (stated over history states satisfying the data-model
invariant that the last element of past is a snapshot of the current
Surface): undo followed immediately by redo, with no intervening
commit, restores the entire state — Surface pixels, past and future —
to exactly its pre-undo contents. -/
theorem undo_redo_roundtrip (st : AppState) (h1 : 1 < st.undoStack.length)
    (h2 : st.undoStack.getLast? = some (encode st.surface)) :
    handleRedo (handleUndo st) = st := by
  obtain ⟨q, t, s2, hd⟩ := undoStack_decomp st.undoStack h1
  have hs2 : s2 = encode st.surface := by
    rw [hd, List.getLast?_concat] at h2
    exact Option.some_inj.mp h2
  rw [hs2] at hd
  rw [handleUndo_concat st q t (encode st.surface) hd]
  have hur : (restoreState
      { st with redoStack := encode st.surface :: st.redoStack,
                undoStack := q ++ [t] } t).redoStack =
      encode st.surface :: st.redoStack := restoreState_redoStack _ _
  rw [handleRedo_cons _ _ _ hur]
  apply AppState.extEq
  · exact restoreState_surface_of_decode _ _ _ rfl
      ((restoreState_surface_length
        { st with redoStack := encode st.surface :: st.redoStack,
                  undoStack := q ++ [t] } t).symm)
  · simp
  · simp
  · simp
  · simp
  · simp [hd]
  · simp
  · simp
  · simp
  · simp

/-- Witness for C1 at a concrete two-entry history whose last snapshot
encodes the current Surface. -/
theorem undo_redo_roundtrip_witness :
    1 < (mkState [3] [encode [0], encode [3]] []).undoStack.length ∧
    handleRedo (handleUndo (mkState [3] [encode [0], encode [3]] [])) =
      mkState [3] [encode [0], encode [3]] [] :=
  ⟨by decide, undo_redo_roundtrip _ (by decide) rfl⟩

/-- Counterexample to claim C3 as stated: at a concrete history with
two past entries and one future entry, a brush configuration change
leaves past with three entries (not one) and future non-empty. -/
theorem configChange_counterexample :
    ¬ (((configChange 0 5 (3/4)
          (mkState [1] [encode [0], encode [1]] [encode [2]])).undoStack.length = 1) ∧
       (configChange 0 5 (3/4)
          (mkState [1] [encode [0], encode [1]] [encode [2]])).redoStack = []) := by
  decide

/-- Claim C3 as amended: at session start the effect captures the
Surface as the sole entry of past and future is empty; on every brush
configuration change the effect appends a snapshot of the current
Surface to past and leaves future unchanged (it neither resets past to
a single entry nor clears future). -/
theorem useEffect_snapshot_behavior :
    (∀ surf : Surface,
      (mount surf).undoStack = [encode surf] ∧ (mount surf).redoStack = []) ∧
    (∀ (st : AppState) (c : ℕ) (w o : ℚ),
      (configChange c w o st).undoStack = st.undoStack ++ [encode st.surface] ∧
      (configChange c w o st).redoStack = st.redoStack) :=
  ⟨fun _ => ⟨rfl, rfl⟩, fun _ _ _ _ => ⟨rfl, rfl⟩⟩
